import Mathlib

/-!
Verification of the mock stock price generator
(`examples/trading/mock-generator/simple_price_generator.py`).

Modelling conventions: Python floats are embedded as rationals (`ℚ`),
Python `round(x, 2)` as rounding to the nearest multiple of 1/100
(`round2`), and Python `int(x)` as truncation toward zero (`pyInt`).
Each call into the `random` module is replaced by an explicit parameter;
a theorem quantifying over that parameter covers every possible value of
the corresponding draw, and the range guarantee of the draw
(`random.uniform(a, b)` lands in `[a, b]`, `random.randint(a, b)` in
`[a, b]`) appears as a hypothesis.  Wall-clock readings are likewise
explicit parameters.
-/

namespace SimplePriceGenerator

/-- Python `int(x)`: truncation toward zero. -/
def pyInt (q : ℚ) : ℤ := if q < 0 then ⌈q⌉ else ⌊q⌋

/-- Python `round(x, 2)`: round to the nearest multiple of 1/100. -/
def round2 (q : ℚ) : ℚ := ((round (q * 100) : ℤ) : ℚ) / 100

/-- The random draws and clock readings consumed by one
`generate_price_update` call and the send that follows it: `gauss` is the
result of `random.gauss(0, volatility)`, `close_u` of
`random.uniform(-0.05, 0.05)`, `vol_base` of
`random.randint(1000000, 50000000)`, `vol_u` of
`random.uniform(-0.3, 0.3)`; `ts` is `datetime.now().isoformat()` and
`now` the value of `time.time()` in seconds at the send. -/
structure Draws where
  gauss : ℚ
  close_u : ℚ
  vol_base : ℤ
  vol_u : ℚ
  ts : String
  now : ℚ
  deriving DecidableEq

/-- The dictionary returned by `generate_price_update`. -/
structure PriceUpdate where
  symbol : String
  price : ℚ
  previous_close : ℚ
  volume : ℤ
  timestamp : String
  deriving DecidableEq

/-- `generate_price_update(symbol, base_price, volatility)`.  The
`volatility` argument only parametrises the distribution of the `gauss`
draw, so it does not occur in the data path; the call sites pass the
default `0.02`. -/
def generate_price_update (symbol : String) (base_price : ℚ)
    (volatility : ℚ) (dr : Draws) : PriceUpdate :=
  let change := dr.gauss * base_price
  let new_price := max (base_price + change) 1
  let previous_close := base_price * (1 + dr.close_u)
  let base_volume := dr.vol_base
  let volume := pyInt ((base_volume : ℚ) * (1 + dr.vol_u))
  { symbol := symbol
    price := round2 new_price
    previous_close := round2 previous_close
    volume := volume
    timestamp := dr.ts }

/-- The `element` part of the event envelope. -/
structure Element where
  type : String
  id : String
  labels : List String
  properties : PriceUpdate
  deriving DecidableEq

/-- The event envelope built by `send_price_to_http_source`. -/
structure Event where
  operation : String
  element : Element
  timestamp : ℤ
  deriving DecidableEq

/-- The envelope `send_price_to_http_source` builds from `price_data`;
`now` is the value of `time.time()` in seconds, so the envelope timestamp
is in unix epoch nanoseconds. -/
def mkEvent (price_data : PriceUpdate) (now : ℚ) : Event :=
  { operation := "update"
    element :=
      { type := "node"
        id := "price_" ++ price_data.symbol
        labels := ["stock_prices"]
        properties := price_data }
    timestamp := pyInt (now * 1000000000) }

/-- The URL `send_price_to_http_source` POSTs to. -/
def eventUrl (http_url source_id : String) : String :=
  http_url ++ "/sources/" ++ source_id ++ "/events"

/-- Outcome of the `requests.post` call: either a response carrying a
status code and body text, or a transport exception rendered as the
string Python would interpolate for `e`. -/
inductive HttpResult where
  | resp (status_code : ℕ) (text : String)
  | exn (msg : String)
  deriving DecidableEq

/-- The console line printed by `send_price_to_http_source` for a given
transport outcome.  The function is total on `HttpResult`: every
outcome, including a raised exception, yields a log line and a normal
return — nothing is retried and nothing propagates.  The Python float
rendering of the price is modelled by `toString` on `ℚ`. -/
def sendLog (result : HttpResult) (price_data : PriceUpdate) : String :=
  match result with
  | .resp status_code text =>
      if status_code = 200 then
        "✓ Sent price update for " ++ price_data.symbol ++ ": $" ++
          toString price_data.price
      else
        "✗ Failed to send " ++ price_data.symbol ++ ": " ++
          toString status_code ++ " - " ++ text
  | .exn msg => "✗ Error sending " ++ price_data.symbol ++ ": " ++ msg

/-- The hard-coded symbol table from `main`, in source order (Python
dicts preserve insertion order). -/
def stocks : List (String × ℚ) :=
  [("AAPL", 175.50), ("MSFT", 405.25), ("GOOGL", 140.75), ("TSLA", 250.30),
   ("NVDA", 880.25), ("META", 485.50), ("AMZN", 178.90), ("AMD", 165.30),
   ("INTC", 42.80), ("JPM", 195.80), ("BAC", 34.25), ("WFC", 48.90),
   ("GS", 425.60), ("V", 280.45), ("JNJ", 155.20), ("PFE", 28.75),
   ("UNH", 525.30), ("CVS", 72.45), ("XOM", 105.80), ("CVX", 145.60),
   ("DIS", 92.15), ("NKE", 98.40), ("BA", 215.70), ("CAT", 285.30)]

/-- Phase 1 of `main` ("Sending initial prices"): iterate the table in
order, simulate each observation from the seeded base price and emit it.
`d i` supplies the draws and clock readings of the `i`-th iteration. -/
def phase1Loop (d : ℕ → Draws) : List (String × ℚ) → ℕ → List Event
  | [], _ => []
  | (symbol, base_price) :: rest, i =>
      mkEvent (generate_price_update symbol base_price (2/100) (d i)) (d i).now ::
        phase1Loop d rest (i + 1)

/-- The list of envelopes POSTed by Phase 1. -/
def phase1Events (d : ℕ → Draws) : List Event := phase1Loop d stocks 0

/-- `stocks[symbol]` dictionary read. -/
def lookupPrice (tbl : List (String × ℚ)) (symbol : String) : Option ℚ :=
  (tbl.find? (fun p => p.1 == symbol)).map (fun p => p.2)

/-- `stocks[symbol] = v` dictionary write: mutates the stored price in
place, leaving the key set and order unchanged. -/
def setPrice (tbl : List (String × ℚ)) (symbol : String) (v : ℚ) :
    List (String × ℚ) :=
  tbl.map (fun p => if p.1 == symbol then (p.1, v) else p)

/-- The body of one Phase-2 cycle of `main`, run over the sampled
`symbols_to_update` starting at draw index `i`: each sampled symbol's
stored price is first perturbed in place by `* (1 + fD i)` and the new
observation is then simulated from the updated stored price and emitted.
A symbol missing from the table would raise `KeyError` in Python, hence
the `Option`. -/
def phase2Cycle (fD : ℕ → ℚ) (sD : ℕ → Draws) :
    List (String × ℚ) → List String → ℕ →
      Option (List (String × ℚ) × List Event)
  | tbl, [], _ => some (tbl, [])
  | tbl, symbol :: rest, i => do
      let current_price ← lookupPrice tbl symbol
      let newBase := current_price * (1 + fD i)
      let tbl' := setPrice tbl symbol newBase
      let (tblFin, evs) ← phase2Cycle fD sD tbl' rest (i + 1)
      some (tblFin,
        mkEvent (generate_price_update symbol newBase (2/100) (sD i)) (sD i).now
          :: evs)

/-- The symbol-table invariant: the table carries exactly the 24 seeded
tickers in seeded order, and every stored base price is strictly
positive. -/
def tableInv (tbl : List (String × ℚ)) : Prop :=
  tbl.map Prod.fst = stocks.map Prod.fst ∧ ∀ p ∈ tbl, 0 < p.2

/-- A fixed bundle of draws used to instantiate theorems at a concrete
input. -/
def drW : Draws :=
  { gauss := 0, close_u := 0, vol_base := 2000000, vol_u := 0
    ts := "2026-10-12T00:00:00", now := 1760227200 }

lemma one_le_round2 {q : ℚ} (h : 1 ≤ q) : 1 ≤ round2 q := by
  unfold round2
  rw [le_div_iff (by norm_num : (0:ℚ) < 100), one_mul]
  have h100 : (100 : ℤ) ≤ round (q * 100) := by
    rw [round_eq, Int.le_floor]
    push_cast
    linarith
  exact_mod_cast h100

/-- C1: for `0 < base_price` and every value of the gaussian draw, the
simulated price is the rounding of `max(base_price + perturbation, 1.0)`
with perturbation `gauss * base_price`, and the price field is ≥ 1. -/
theorem price_floor (symbol : String) (base_price volatility : ℚ)
    (dr : Draws) (hp : 0 < base_price) :
    (generate_price_update symbol base_price volatility dr).price =
      round2 (max (base_price + dr.gauss * base_price) 1) ∧
    1 ≤ (generate_price_update symbol base_price volatility dr).price :=
  ⟨rfl, one_le_round2 (le_max_right _ _)⟩

theorem price_floor_witness :
    (0:ℚ) < 175.50 ∧
    ((generate_price_update "AAPL" 175.50 (2/100) drW).price =
        round2 (max (175.50 + drW.gauss * 175.50) 1) ∧
      1 ≤ (generate_price_update "AAPL" 175.50 (2/100) drW).price) :=
  ⟨by norm_num, price_floor "AAPL" 175.50 (2/100) drW (by norm_num)⟩

/-- C9: the `max _ 1.0` floor is applied before rounding and needs no
precondition at all — the price field is ≥ 1 for every base price,
including zero and negative ones, and every perturbation. -/
theorem price_floor_unconditional (symbol : String)
    (base_price volatility : ℚ) (dr : Draws) :
    1 ≤ (generate_price_update symbol base_price volatility dr).price :=
  one_le_round2 (le_max_right _ _)

lemma round2_hundredth (q : ℚ) : ∃ n : ℤ, round2 q = (n : ℚ) / 100 :=
  ⟨round (q * 100), rfl⟩

lemma round2_near (q : ℚ) : |round2 q - q| ≤ 1 / 200 := by
  have h := abs_sub_round (q * 100)
  unfold round2
  have heq : ((round (q * 100) : ℤ) : ℚ) / 100 - q =
      (q * 100 - ((round (q * 100) : ℤ) : ℚ)) * (-(1 / 100)) := by ring
  rw [heq, abs_mul]
  have : |(-(1 / 100) : ℚ)| = 1 / 100 := by norm_num
  rw [this]
  nlinarith [abs_nonneg (q * 100 - ((round (q * 100) : ℤ) : ℚ))]

/-- C8: the `price` and `previous_close` fields are the 2-decimal
roundings of their raw values: each is an integer multiple of 1/100 and
within 1/200 of the unrounded value. -/
theorem rounded_two_decimals (symbol : String) (base_price volatility : ℚ)
    (dr : Draws) :
    (generate_price_update symbol base_price volatility dr).price =
      round2 (max (base_price + dr.gauss * base_price) 1) ∧
    (generate_price_update symbol base_price volatility dr).previous_close =
      round2 (base_price * (1 + dr.close_u)) ∧
    ∀ q : ℚ, (∃ n : ℤ, round2 q = (n : ℚ) / 100) ∧ |round2 q - q| ≤ 1 / 200 :=
  ⟨rfl, rfl, fun q => ⟨round2_hundredth q, round2_near q⟩⟩

/-- C2: whatever the draws, the volume field is a positive integer in
`[700000, 65000000]`: the raw product lies in the outer bound of the two
scaling ranges and truncation keeps it there. -/
theorem volume_range (symbol : String) (base_price volatility : ℚ)
    (dr : Draws)
    (h1 : 1000000 ≤ dr.vol_base) (h2 : dr.vol_base ≤ 50000000)
    (h3 : -(3/10) ≤ dr.vol_u) (h4 : dr.vol_u ≤ 3/10) :
    0 < (generate_price_update symbol base_price volatility dr).volume ∧
    700000 ≤ (generate_price_update symbol base_price volatility dr).volume ∧
    (generate_price_update symbol base_price volatility dr).volume ≤ 65000000 := by
  have hb : (1000000 : ℚ) ≤ (dr.vol_base : ℚ) := by exact_mod_cast h1
  have hb' : (dr.vol_base : ℚ) ≤ 50000000 := by exact_mod_cast h2
  have hlow : (700000 : ℚ) ≤ (dr.vol_base : ℚ) * (1 + dr.vol_u) := by
    nlinarith
  have hhigh : (dr.vol_base : ℚ) * (1 + dr.vol_u) ≤ 65000000 := by
    nlinarith
  have hvol : (generate_price_update symbol base_price volatility dr).volume =
      pyInt ((dr.vol_base : ℚ) * (1 + dr.vol_u)) := rfl
  set x : ℚ := (dr.vol_base : ℚ) * (1 + dr.vol_u) with hx
  have hx0 : ¬ x < 0 := by
    push_neg
    linarith
  have hpy : pyInt x = ⌊x⌋ := by
    simp [pyInt, hx0]
  have hfl : (700000 : ℤ) ≤ ⌊x⌋ := by
    rw [Int.le_floor]
    exact_mod_cast hlow
  have hfu : ⌊x⌋ ≤ (65000000 : ℤ) := by
    have h := (Int.floor_le x).trans hhigh
    exact_mod_cast h
  rw [hvol, hpy]
  refine ⟨by omega, hfl, hfu⟩

theorem volume_range_witness :
    ((1000000 : ℤ) ≤ drW.vol_base ∧ drW.vol_base ≤ 50000000 ∧
      -(3/10 : ℚ) ≤ drW.vol_u ∧ drW.vol_u ≤ 3/10) ∧
    (0 < (generate_price_update "AAPL" 175.50 (2/100) drW).volume ∧
      700000 ≤ (generate_price_update "AAPL" 175.50 (2/100) drW).volume ∧
      (generate_price_update "AAPL" 175.50 (2/100) drW).volume ≤ 65000000) :=
  ⟨⟨by decide, by decide, by norm_num [drW], by norm_num [drW]⟩,
    volume_range "AAPL" 175.50 (2/100) drW
      (by decide) (by decide) (by norm_num [drW]) (by norm_num [drW])⟩

/-- C3: the envelope built for an observation carries operation
`"update"`, an element of type `"node"` with id `"price_" ++ symbol`,
labels `["stock_prices"]` and the unchanged observation as properties,
and a top-level timestamp of `time.time()` scaled to nanoseconds; the
target URL is `base_url/sources/source_id/events`. -/
theorem envelope_shape (pd : PriceUpdate) (now : ℚ)
    (http_url source_id : String) :
    (mkEvent pd now).operation = "update" ∧
    (mkEvent pd now).element.type = "node" ∧
    (mkEvent pd now).element.id = "price_" ++ pd.symbol ∧
    (mkEvent pd now).element.labels = ["stock_prices"] ∧
    (mkEvent pd now).element.properties = pd ∧
    (mkEvent pd now).timestamp = pyInt (now * 1000000000) ∧
    eventUrl http_url source_id =
      http_url ++ "/sources/" ++ source_id ++ "/events" :=
  ⟨rfl, rfl, rfl, rfl, rfl, rfl, rfl⟩

/-- C4: a 200 response logs a success line carrying the symbol and the
price, any other status logs a failure line carrying the status code and
the body, and an exception logs its description; `sendLog` is total, so
every send returns normally with no retry and no propagated error. -/
theorem send_logging (pd : PriceUpdate) (code : ℕ) (text msg : String)
    (hcode : code ≠ 200) :
    sendLog (.resp 200 text) pd =
      "✓ Sent price update for " ++ pd.symbol ++ ": $" ++ toString pd.price ∧
    sendLog (.resp code text) pd =
      "✗ Failed to send " ++ pd.symbol ++ ": " ++ toString code ++
        " - " ++ text ∧
    sendLog (.exn msg) pd =
      "✗ Error sending " ++ pd.symbol ++ ": " ++ msg := by
  refine ⟨rfl, ?_, rfl⟩
  simp [sendLog, hcode]

/-- A fixed observation used to instantiate theorems at a concrete
input. -/
def pdW : PriceUpdate :=
  { symbol := "AAPL", price := 351/2, previous_close := 351/2
    volume := 2000000, timestamp := "2026-10-12T00:00:00" }

theorem send_logging_witness :
    (500 : ℕ) ≠ 200 ∧
    (sendLog (.resp 200 "ok") pdW =
        "✓ Sent price update for " ++ pdW.symbol ++ ": $" ++
          toString pdW.price ∧
      sendLog (.resp 500 "ok") pdW =
        "✗ Failed to send " ++ pdW.symbol ++ ": " ++ toString (500 : ℕ) ++
          " - " ++ "ok" ∧
      sendLog (.exn "boom") pdW =
        "✗ Error sending " ++ pdW.symbol ++ ": " ++ "boom") :=
  ⟨by decide, send_logging pdW 500 "ok" "boom" (by decide)⟩

/-- C7: the previous_close field is `base_price * (1 + u)` rounded to two
decimals for the uniform draw `u ∈ [-0.05, 0.05]` — a scaling of the base
price by a factor in `[0.95, 1.05]` — and it depends only on that draw,
not on the gaussian draw used for the price field. -/
theorem previous_close_eq (symbol : String) (base_price volatility : ℚ)
    (dr : Draws) (h1 : -(5/100) ≤ dr.close_u) (h2 : dr.close_u ≤ 5/100) :
    (generate_price_update symbol base_price volatility dr).previous_close =
      round2 (base_price * (1 + dr.close_u)) ∧
    (95/100 : ℚ) ≤ 1 + dr.close_u ∧ 1 + dr.close_u ≤ 105/100 ∧
    ∀ dr' : Draws, dr'.close_u = dr.close_u →
      (generate_price_update symbol base_price volatility dr').previous_close =
        (generate_price_update symbol base_price volatility dr).previous_close := by
  refine ⟨rfl, by linarith, by linarith, ?_⟩
  intro dr' h
  simp [generate_price_update, h]

theorem previous_close_eq_witness :
    (-(5/100 : ℚ) ≤ drW.close_u ∧ drW.close_u ≤ 5/100) ∧
    ((generate_price_update "AAPL" 175.50 (2/100) drW).previous_close =
        round2 (175.50 * (1 + drW.close_u)) ∧
      (95/100 : ℚ) ≤ 1 + drW.close_u ∧ 1 + drW.close_u ≤ 105/100 ∧
      ∀ dr' : Draws, dr'.close_u = drW.close_u →
        (generate_price_update "AAPL" 175.50 (2/100) dr').previous_close =
          (generate_price_update "AAPL" 175.50 (2/100) drW).previous_close) :=
  ⟨⟨by norm_num [drW], by norm_num [drW]⟩,
    previous_close_eq "AAPL" 175.50 (2/100) drW
      (by norm_num [drW]) (by norm_num [drW])⟩

lemma phase1Loop_length (d : ℕ → Draws) :
    ∀ (l : List (String × ℚ)) (k : ℕ), (phase1Loop d l k).length = l.length := by
  intro l
  induction l with
  | nil => intro k; rfl
  | cons hd tl ih =>
    intro k
    obtain ⟨s, p⟩ := hd
    simp [phase1Loop, ih (k + 1)]

lemma phase1Loop_getElem (d : ℕ → Draws) (l : List (String × ℚ)) :
    ∀ (k i : ℕ), (phase1Loop d l k)[i]? =
      l[i]?.map (fun sp =>
        mkEvent (generate_price_update sp.1 sp.2 (2/100) (d (k + i)))
          (d (k + i)).now) := by
  induction l with
  | nil => intro k i; simp [phase1Loop]
  | cons hd tl ih =>
    intro k i
    obtain ⟨s, p⟩ := hd
    cases i with
    | zero => simp [phase1Loop]
    | succ j =>
      have hk : k + 1 + j = k + (j + 1) := by omega
      have h := ih (k + 1) j
      rw [hk] at h
      simpa [phase1Loop] using h

/-- C5: Phase 1 emits exactly 24 envelopes, one per seeded symbol in
table order, each simulated from that symbol's seeded base price. -/
theorem phase1_posts (d : ℕ → Draws) :
    (phase1Events d).length = 24 ∧
    (phase1Events d).map (fun e => e.element.id) =
      ["price_AAPL", "price_MSFT", "price_GOOGL", "price_TSLA",
       "price_NVDA", "price_META", "price_AMZN", "price_AMD",
       "price_INTC", "price_JPM", "price_BAC", "price_WFC",
       "price_GS", "price_V", "price_JNJ", "price_PFE",
       "price_UNH", "price_CVS", "price_XOM", "price_CVX",
       "price_DIS", "price_NKE", "price_BA", "price_CAT"] ∧
    ∀ i : ℕ, (phase1Events d)[i]? =
      stocks[i]?.map (fun sp =>
        mkEvent (generate_price_update sp.1 sp.2 (2/100) (d i)) (d i).now) := by
  refine ⟨?_, ?_, ?_⟩
  · show (phase1Loop d stocks 0).length = 24
    rw [phase1Loop_length d stocks 0]
    rfl
  · rfl
  · intro i
    simpa using phase1Loop_getElem d stocks 0 i

lemma lookupPrice_setPrice (tbl : List (String × ℚ)) (s s' : String) (v : ℚ) :
    lookupPrice (setPrice tbl s v) s' =
      (lookupPrice tbl s').map (fun p => if s' = s then v else p) := by
  induction tbl with
  | nil => rfl
  | cons hd tl ih =>
    have hsp : setPrice (hd :: tl) s v =
        (if (hd.1 == s) = true then (hd.1, v) else hd) :: setPrice tl s v := rfl
    by_cases hs' : hd.1 = s'
    · by_cases hs : hd.1 = s
      · have hss : s' = s := hs' ▸ hs
        rw [hsp, if_pos (by simp [hs])]
        unfold lookupPrice
        rw [List.find?_cons_of_pos _ (by simp [hs']),
          List.find?_cons_of_pos _ (by simp [hs'])]
        simp [hss]
      · have hss : ¬ s' = s := fun h => hs (hs'.trans h)
        rw [hsp, if_neg (by simp [hs])]
        unfold lookupPrice
        rw [List.find?_cons_of_pos _ (by simp [hs']),
          List.find?_cons_of_pos _ (by simp [hs'])]
        simp [hss]
    · have hfst : ((if (hd.1 == s) = true then (hd.1, v) else hd) : String × ℚ).1 =
          hd.1 := by
        split <;> rfl
      rw [hsp]
      unfold lookupPrice
      rw [List.find?_cons_of_neg _ (by simp only [hfst]; simp [hs']),
        List.find?_cons_of_neg _ (by simp [hs'])]
      exact ih

lemma lookupPrice_isSome_congr (tbl tbl' : List (String × ℚ)) (s : String)
    (h : ∀ s', (lookupPrice tbl' s') = (lookupPrice tbl s')) :
    (lookupPrice tbl' s).isSome = (lookupPrice tbl s).isSome := by
  rw [h]

lemma phase2Cycle_lookup_of_not_mem (fD : ℕ → ℚ) (sD : ℕ → Draws) :
    ∀ (l : List String) (tbl tbl' : List (String × ℚ)) (evs : List Event)
      (i : ℕ) (s : String),
      phase2Cycle fD sD tbl l i = some (tbl', evs) → s ∉ l →
      lookupPrice tbl' s = lookupPrice tbl s := by
  intro l
  induction l with
  | nil =>
    intro tbl tbl' evs i s h _
    simp [phase2Cycle] at h
    rw [h.1]
  | cons hd tl ih =>
    intro tbl tbl' evs i s h hmem
    rw [List.mem_cons, not_or] at hmem
    simp only [phase2Cycle, Option.bind_eq_bind, Option.bind_eq_some] at h
    obtain ⟨p, hp, q, hq, hres⟩ := h
    have h1 := ih (setPrice tbl hd (p * (1 + fD i))) q.1 q.2 (i + 1) s hq hmem.2
    have h2 := lookupPrice_setPrice tbl hd s (p * (1 + fD i))
    have hfun : (fun z : ℚ => if s = hd then p * (1 + fD i) else z) = id := by
      funext z
      rw [if_neg hmem.1]
      rfl
    rw [hfun, Option.map_id] at h2
    simp only [Option.some.injEq, Prod.mk.injEq] at hres
    obtain ⟨h3, _⟩ := hres
    rw [← h3]
    exact h1.trans h2

lemma phase2Cycle_spec_aux (fD : ℕ → ℚ) (sD : ℕ → Draws) :
    ∀ (syms : List String) (tbl : List (String × ℚ)) (k : ℕ),
      syms.Nodup → (∀ s ∈ syms, (lookupPrice tbl s).isSome) →
      ∃ tbl' evs, phase2Cycle fD sD tbl syms k = some (tbl', evs) ∧
        evs.length = syms.length ∧
        ∀ i s p, syms[i]? = some s → lookupPrice tbl s = some p →
          evs[i]? = some (mkEvent
            (generate_price_update s (p * (1 + fD (k + i))) (2/100)
              (sD (k + i))) (sD (k + i)).now) ∧
          lookupPrice tbl' s = some (p * (1 + fD (k + i))) := by
  intro syms
  induction syms with
  | nil =>
    intro tbl k _ _
    refine ⟨tbl, [], rfl, rfl, ?_⟩
    intro i s p hs _
    simp at hs
  | cons hd tl ih =>
    intro tbl k hnd hmem
    obtain ⟨p0, hp0⟩ : ∃ p0, lookupPrice tbl hd = some p0 :=
      Option.isSome_iff_exists.mp (hmem hd (List.mem_cons_self hd tl))
    rw [List.nodup_cons] at hnd
    obtain ⟨hhd, htlnd⟩ := hnd
    set v0 : ℚ := p0 * (1 + fD k) with hv0
    set tbl1 := setPrice tbl hd v0 with htbl1
    have hlk1 : ∀ s, ¬ s = hd → lookupPrice tbl1 s = lookupPrice tbl s := by
      intro s hne
      rw [htbl1, lookupPrice_setPrice]
      have hfun : (fun z : ℚ => if s = hd then v0 else z) = id := by
        funext z
        rw [if_neg hne]
        rfl
      rw [hfun, Option.map_id]
      rfl
    have hmem' : ∀ s ∈ tl, (lookupPrice tbl1 s).isSome := by
      intro s hs
      have hne : ¬ s = hd := fun h => hhd (h ▸ hs)
      rw [hlk1 s hne]
      exact hmem s (List.mem_cons_of_mem _ hs)
    obtain ⟨tbl', evs', hcyc, hlen, hprop⟩ := ih tbl1 (k + 1) htlnd hmem'
    refine ⟨tbl',
      mkEvent (generate_price_update hd v0 (2/100) (sD k)) (sD k).now :: evs',
      ?_, ?_, ?_⟩
    · simp only [phase2Cycle, hp0, Option.bind_eq_bind, Option.some_bind, ← hv0,
        ← htbl1, hcyc]
    · simp [hlen]
    · intro i s p hs hp
      cases i with
      | zero =>
        rw [List.getElem?_cons_zero, Option.some.injEq] at hs
        subst hs
        rw [hp0, Option.some.injEq] at hp
        subst hp
        constructor
        · rw [List.getElem?_cons_zero, Nat.add_zero]
        · rw [Nat.add_zero, phase2Cycle_lookup_of_not_mem fD sD tl tbl1 tbl' evs'
            (k + 1) hd hcyc hhd, htbl1, lookupPrice_setPrice, hp0]
          simp [hv0]
      | succ j =>
        rw [List.getElem?_cons_succ] at hs
        have hsmem : s ∈ tl := List.getElem?_mem hs
        have hne : ¬ s = hd := fun h => hhd (h ▸ hsmem)
        have hp1 : lookupPrice tbl1 s = some p := by rw [hlk1 s hne]; exact hp
        have hkj : k + 1 + j = k + (j + 1) := by omega
        obtain ⟨he, hl⟩ := hprop j s p hs hp1
        rw [hkj] at he hl
        exact ⟨by rw [List.getElem?_cons_succ]; exact he, hl⟩

/-- C6: in a Phase-2 cycle over a sampled batch of 3–8 distinct symbols
present in the table, each sampled symbol's stored base price is first
multiplied by `1 + fD i` and the emitted observation is simulated from
that updated stored price; the final table carries the updated price. -/
theorem phase2_cycle_spec (tbl : List (String × ℚ)) (syms : List String)
    (fD : ℕ → ℚ) (sD : ℕ → Draws)
    (hlen : 3 ≤ syms.length ∧ syms.length ≤ 8) (hnd : syms.Nodup)
    (hmem : ∀ s ∈ syms, (lookupPrice tbl s).isSome) :
    ∃ tbl' evs, phase2Cycle fD sD tbl syms 0 = some (tbl', evs) ∧
      evs.length = syms.length ∧
      ∀ i s p, syms[i]? = some s → lookupPrice tbl s = some p →
        evs[i]? = some (mkEvent
          (generate_price_update s (p * (1 + fD i)) (2/100) (sD i))
            (sD i).now) ∧
        lookupPrice tbl' s = some (p * (1 + fD i)) := by
  obtain ⟨tbl', evs, h1, h2, h3⟩ := phase2Cycle_spec_aux fD sD syms tbl 0 hnd hmem
  refine ⟨tbl', evs, h1, h2, ?_⟩
  intro i s p hs hp
  have h := h3 i s p hs hp
  rwa [Nat.zero_add] at h

theorem phase2_cycle_spec_witness :
    ∃ tbl' evs,
      phase2Cycle (fun _ => (0 : ℚ)) (fun _ => drW) stocks
          ["AAPL", "MSFT", "GOOGL"] 0 = some (tbl', evs) ∧
      evs.length = (["AAPL", "MSFT", "GOOGL"] : List String).length ∧
      ∀ (i : ℕ) (s : String) (p : ℚ),
        (["AAPL", "MSFT", "GOOGL"] : List String)[i]? = some s →
        lookupPrice stocks s = some p →
        evs[i]? = some (mkEvent
          (generate_price_update s (p * (1 + (0 : ℚ))) (2/100) drW)
            drW.now) ∧
        lookupPrice tbl' s = some (p * (1 + (0 : ℚ))) :=
  phase2_cycle_spec stocks ["AAPL", "MSFT", "GOOGL"]
    (fun _ => 0) (fun _ => drW) ⟨by decide, by decide⟩ (by decide)
    (by intro s hs; fin_cases hs <;> rfl)

lemma setPrice_keys (tbl : List (String × ℚ)) (s : String) (v : ℚ) :
    (setPrice tbl s v).map Prod.fst = tbl.map Prod.fst := by
  unfold setPrice
  rw [List.map_map]
  apply List.map_congr_left
  intro p _
  show (if (p.1 == s) = true then (p.1, v) else p).1 = p.1
  split <;> rfl

lemma lookupPrice_mem (tbl : List (String × ℚ)) (s : String) (p : ℚ)
    (h : lookupPrice tbl s = some p) : ∃ a ∈ tbl, a.2 = p := by
  unfold lookupPrice at h
  obtain ⟨a, ha, hap⟩ := Option.map_eq_some'.mp h
  exact ⟨a, List.mem_of_find?_eq_some ha, hap⟩

lemma setPrice_inv (tbl : List (String × ℚ)) (s : String) (p f : ℚ)
    (hInv : tableInv tbl) (hlk : lookupPrice tbl s = some p)
    (hf1 : -(1/1000) ≤ f) (hf2 : f ≤ 1/1000) :
    tableInv (setPrice tbl s (p * (1 + f))) := by
  obtain ⟨hkeys, hpos⟩ := hInv
  constructor
  · rw [setPrice_keys]
    exact hkeys
  · intro q hq
    unfold setPrice at hq
    rw [List.mem_map] at hq
    obtain ⟨a, ha, rfl⟩ := hq
    by_cases hbe : (a.1 == s) = true
    · rw [if_pos hbe]
      have hp : 0 < p := by
        obtain ⟨b, hb, hbp⟩ := lookupPrice_mem tbl s p hlk
        exact hbp ▸ hpos b hb
      have h1f : (0 : ℚ) < 1 + f := by linarith
      exact mul_pos hp h1f
    · rw [if_neg hbe]
      exact hpos a ha

lemma phase2Cycle_inv (fD : ℕ → ℚ) (sD : ℕ → Draws)
    (hfD : ∀ i, -(1/1000) ≤ fD i ∧ fD i ≤ 1/1000) :
    ∀ (l : List String) (tbl : List (String × ℚ)) (i : ℕ)
      (tbl' : List (String × ℚ)) (evs : List Event),
      tableInv tbl → phase2Cycle fD sD tbl l i = some (tbl', evs) →
      tableInv tbl' := by
  intro l
  induction l with
  | nil =>
    intro tbl i tbl' evs hInv h
    simp [phase2Cycle] at h
    rw [← h.1]
    exact hInv
  | cons hd tl ih =>
    intro tbl i tbl' evs hInv h
    simp only [phase2Cycle, Option.bind_eq_bind, Option.bind_eq_some] at h
    obtain ⟨p, hp, q, hq, hres⟩ := h
    have hInv1 := setPrice_inv tbl hd p (fD i) hInv hp (hfD i).1 (hfD i).2
    have hInv' := ih (setPrice tbl hd (p * (1 + fD i))) (i + 1) q.1 q.2 hInv1 hq
    simp only [Option.some.injEq, Prod.mk.injEq] at hres
    rw [← hres.1]
    exact hInv'

/-- C10: the symbol-table invariant — the table always maps exactly the
24 seeded tickers in seeded order with strictly positive prices: it
holds of the seeded table, each Phase-2 mutation multiplies one stored
price by a factor in `[0.999, 1.001]` and preserves it, and hence a
whole Phase-2 cycle preserves it. -/
theorem table_invariant :
    tableInv stocks ∧
    (∀ tbl s p f, tableInv tbl → lookupPrice tbl s = some p →
      -(1/1000) ≤ f → f ≤ 1/1000 →
      (999/1000 : ℚ) ≤ 1 + f ∧ (1 + f : ℚ) ≤ 1001/1000 ∧
      tableInv (setPrice tbl s (p * (1 + f)))) ∧
    (∀ fD sD tbl syms tbl' evs, tableInv tbl →
      (∀ i, -(1/1000) ≤ fD i ∧ fD i ≤ 1/1000) →
      phase2Cycle fD sD tbl syms 0 = some (tbl', evs) → tableInv tbl') := by
  refine ⟨⟨rfl, ?_⟩, ?_, ?_⟩
  · intro p hp
    simp only [stocks, List.mem_cons, List.not_mem_nil, or_false] at hp
    rcases hp with h | h | h | h | h | h | h | h | h | h | h | h |
      h | h | h | h | h | h | h | h | h | h | h | h <;> rw [h] <;> norm_num
  · intro tbl s p f hInv hlk hf1 hf2
    exact ⟨by linarith, by linarith, setPrice_inv tbl s p f hInv hlk hf1 hf2⟩
  · intro fD sD tbl syms tbl' evs hInv hfD hcyc
    exact phase2Cycle_inv fD sD hfD syms tbl 0 tbl' evs hInv hcyc

theorem table_invariant_witness :
    (999/1000 : ℚ) ≤ 1 + 0 ∧ ((1 + 0 : ℚ)) ≤ 1001/1000 ∧
    tableInv (setPrice stocks "AAPL" (175.50 * (1 + 0))) :=
  table_invariant.2.1 stocks "AAPL" 175.50 0 table_invariant.1
    (by rfl) (by norm_num) (by norm_num)

end SimplePriceGenerator
